import Mathlib

/-!
# Verification of the Fitbit EDA pipeline (src/main.py)

A shallow embedding of the core pipeline of `src/main.py`: source loading
(`read_csv_safe`), identifier normalization (`norm_id`), per-source date
parsing, deduplication, heart-rate daily aggregation (`hr_day`), the
left-join chain building the analysis table, and the quality-control flags
(`zero_step_high_cal` / `valid_row`).

Tables are lists of rows; a row is an association list from column names to
cell values.  A missing binding reads as the null value, matching a NaN
cell of a DataFrame.  Machine floats are modelled as exact rationals.
-/

set_option maxRecDepth 10000

/-- A calendar day (the day-granularity join key produced by `.dt.normalize()`). -/
structure Day where
  year : Nat
  month : Nat
  day : Nat
deriving DecidableEq, Repr

/-- A parsed timestamp (what `pd.to_datetime` produces before normalization). -/
structure DateTimePart where
  month : Nat
  day : Nat
  year : Nat
  hour : Nat
  minute : Nat
  second : Nat
deriving DecidableEq, Repr

/-- Cell values of a DataFrame: strings, integers, rationals (floats),
booleans, timestamps, day keys, and the null/NaN cell. -/
inductive Val where
  | str : String → Val
  | int : Int → Val
  | rat : Rat → Val
  | bool : Bool → Val
  | dt : DateTimePart → Val
  | date : Day → Val
  | null : Val
deriving DecidableEq, Repr

/-- Numeric view of a cell, as used by arithmetic comparisons and medians:
NaN, strings, timestamps have no numeric value. -/
def toRatQ : Val → Option Rat
  | Val.int n => some (n : Rat)
  | Val.rat q => some q
  | _ => none

/- ### Decimal digit strings

Used to model `pd.to_numeric(...).astype("Int64").astype(str)` in `norm_id`
(src lines 53-56): numeric coercion of a decimal string, with failures
becoming the nullable sentinel which stringifies as "<NA>". -/

def digitChar (d : Nat) : Char :=
  match d with
  | 0 => '0' | 1 => '1' | 2 => '2' | 3 => '3' | 4 => '4'
  | 5 => '5' | 6 => '6' | 7 => '7' | 8 => '8' | 9 => '9'
  | _ => '?'

def charDigit (c : Char) : Nat := c.toNat - 48

def isDigitCh (c : Char) : Bool := 48 ≤ c.toNat && c.toNat ≤ 57

/-- Value of a big-endian digit-character list; `none` unless nonempty and all digits. -/
def parseNatChars (l : List Char) : Option Nat :=
  if l ≠ [] ∧ l.all isDigitCh then some (l.foldl (fun a c => a * 10 + charDigit c) 0) else none

/-- Big-endian digit characters of `n` (with `fuel` bounding the recursion). -/
def natReprAux : Nat → Nat → List Char
  | 0, _ => []
  | fuel + 1, n =>
      if n < 10 then [digitChar n] else natReprAux fuel (n / 10) ++ [digitChar (n % 10)]

/-- Decimal rendering of a natural number (models Python `str` on a nonnegative int). -/
def natRepr (n : Nat) : String := ⟨natReprAux (n + 1) n⟩

/-- Decimal rendering of an integer (models `astype(str)` on an `Int64` value). -/
def intRepr (k : Int) : String :=
  if k < 0 then "-" ++ natRepr k.natAbs else natRepr k.toNat

/-- Parse a decimal integer string: optional leading minus then digits. -/
def parseIntStr (s : String) : Option Int :=
  match s.data with
  | [] => none
  | c :: rest =>
      if c = '-' then (parseNatChars rest).map (fun n => -(n : Int))
      else (parseNatChars (c :: rest)).map (fun n => (n : Int))

/-- Parse a nonnegative decimal, optionally with a fractional part. -/
def parseNonnegRat (s : String) : Option Rat :=
  match (s.data.splitOn '.').map (fun l => parseNatChars l) with
  | [some a] => some (a : Rat)
  | [some a, some b] => some ((a : Rat) + (b : Rat) / ((10 : Rat) ^ (s.data.splitOn '.')[1]!.length))
  | _ => none

/-- Parse a decimal rational string (models `pd.to_numeric` on a plain decimal literal). -/
def parseRatStr (s : String) : Option Rat :=
  match s.data with
  | '-' :: rest => (parseNonnegRat ⟨rest⟩).map Neg.neg
  | _ => parseNonnegRat s

/- ### Rows and tables -/

/-- A row: association list from column name to cell value.  Missing binding = NaN. -/
abbrev Row := List (String × Val)

/-- Read a cell; a column with no binding reads as null (NaN). -/
def Row.get : Row → String → Val
  | [], _ => Val.null
  | p :: r, c => if p.1 = c then p.2 else Row.get r c

/-- Drop every binding of column `c`. -/
def eraseCol : Row → String → Row
  | [], _ => []
  | p :: r, c => if p.1 = c then eraseCol r c else p :: eraseCol r c

/-- Overwrite (or create) the binding of column `c` (models a column assignment). -/
def setCell (r : Row) (c : String) (v : Val) : Row := (c, v) :: eraseCol r c

/-- Project a row onto a column list (models `df[cols]` row-wise). -/
def projRow (r : Row) (cs : List String) : Row := cs.map (fun c => (c, Row.get r c))

/-- A row binding every listed column to null (the unmatched side of a left join). -/
def nullExtRow (cs : List String) : Row := cs.map (fun c => (c, Val.null))

/-- A DataFrame: its column list and its rows. -/
structure Table where
  cols : List String
  rows : List Row
deriving DecidableEq, Repr

/-- Append a column name if not already present (models assigning a new column). -/
def addCol (cs : List String) (c : String) : List String :=
  if c ∈ cs then cs else cs ++ [c]

/- ### Source loader (src lines 30-42) -/

/-- The state of a path in the abstract filesystem seen by `read_csv_safe`:
the file is missing, present but not parseable as CSV, or parses to a table. -/
inductive FileContent where
  | missing
  | malformed
  | parsed (t : Table)
deriving DecidableEq

/-- The `log` helper (src lines 30-31): prefixes every diagnostic line. -/
def logMsg (m : String) : String := "[Fitbit-EDA] " ++ m

/-- `read_csv_safe` (src lines 34-42) over an abstract filesystem: returns the
parsed table or `none`, together with the diagnostic lines it printed.  The
exception text appended to the failed-read message is abstracted away. -/
def read_csv_safe (fs : String → FileContent) (path : String) : Option Table × List String :=
  match fs path with
  | FileContent.missing => (none, [logMsg ("Missing file: " ++ path)])
  | FileContent.malformed => (none, [logMsg ("Failed to read " ++ path)])
  | FileContent.parsed t => (some t, [])

/- ### Identifier normalizer (src lines 53-56) -/

/-- `pd.to_numeric(v, errors="coerce").astype("Int64")` on one cell, on the
domain where the cast succeeds: integer value of the cell, null on coercion
failure.  On a numeric cell the real cast cannot take (a non-integral
value), `astype("Int64")` raises TypeError; that raising path is modelled
faithfully by `canonIdValE` / `normIdE` below, and this total restriction
is what the rest of the pipeline uses on non-raising inputs. -/
def toNumericInt : Val → Option Int
  | Val.str s => parseIntStr s
  | Val.int n => some n
  | Val.rat q => if q.den = 1 then some q.num else none
  | Val.bool b => some (if b then 1 else 0)
  | _ => none

/-- One cell of `norm_id`'s pipeline: numeric coercion, nullable-int cast,
stringify; the nullable NA stringifies as "<NA>". -/
def canonIdVal (v : Val) : Val :=
  match toNumericInt v with
  | some k => Val.str (intRepr k)
  | none => Val.str "<NA>"

/-- `norm_id` (src lines 53-56): replace the Id column by its canonical string
form; tables without an Id column pass through unchanged. -/
def normId (t : Table) : Table :=
  if "Id" ∈ t.cols then
    { cols := t.cols, rows := t.rows.map (fun r => setCell r "Id" (canonIdVal (Row.get r "Id"))) }
  else t

/-- `pd.to_numeric(v, errors="coerce")` on one Id cell: its numeric value,
null on coercion failure (decimal literals included, so "12.5" coerces to
the float 12.5 rather than failing). -/
def toNumericCell : Val → Option Rat
  | Val.str s => parseRatStr s
  | Val.int n => some ((n : Int) : Rat)
  | Val.rat q => some q
  | Val.bool b => some (if b then 1 else 0)
  | _ => none

/-- A numeric value the `astype("Int64")` cast accepts: an exact integer in
the signed 64-bit range. -/
abbrev int64Castable (q : Rat) : Prop :=
  q.den = 1 ∧ -(2 ^ 63) ≤ q.num ∧ q.num < 2 ^ 63

/-- `astype("Int64")` on one numeric value: exact in-range integers cast;
anything else (for example the non-integral 12.5) raises TypeError.
(float64 rounding of values beyond 2^53 is not modelled.) -/
def int64Cast (q : Rat) : Except String Int :=
  if int64Castable q then Except.ok q.num else Except.error "TypeError"

/-- One cell of `norm_id`'s pipeline with the raising cast modelled: numeric
coercion, fallible nullable-int cast, stringify; the nullable NA
stringifies as "<NA>". -/
def canonIdValE (v : Val) : Except String Val :=
  match toNumericCell v with
  | none => Except.ok (Val.str "<NA>")
  | some q => (int64Cast q).map (fun k => Val.str (intRepr k))

/-- Traverse a list with a fallible function, stopping at the first error
(the whole-column cast raises as soon as any value is uncastable). -/
def mapExcept (f : α → Except String β) : List α → Except String (List β)
  | [] => Except.ok []
  | a :: as =>
      match f a with
      | Except.error e => Except.error e
      | Except.ok b =>
          match mapExcept f as with
          | Except.error e => Except.error e
          | Except.ok bs => Except.ok (b :: bs)

/-- `norm_id` (src lines 53-56) with its error behavior: replace the Id
column by its canonical string form, raising (TypeError from the Int64
cast) when any Id cell is numeric but not an exact 64-bit integer; tables
without an Id column pass through unchanged. -/
def normIdE (t : Table) : Except String Table :=
  if "Id" ∈ t.cols then
    (mapExcept (fun r => (canonIdValE (Row.get r "Id")).map (fun v => setCell r "Id" v))
        t.rows).map
      (fun rows2 => { cols := t.cols, rows := rows2 })
  else Except.ok t

/- ### Temporal normalizer (src lines 64-87)

`pd.to_datetime(col, format=f)` is modelled by a character-level parser per
format string, applied cell-wise; `errors="coerce"` turns failures into null. -/

def isLeap (y : Nat) : Bool := (y % 4 = 0 && y % 100 ≠ 0) || y % 400 = 0

def daysInMonth (y m : Nat) : Nat :=
  if m = 2 then (if isLeap y then 29 else 28)
  else if m = 4 ∨ m = 6 ∨ m = 9 ∨ m = 11 then 30 else 31

def validDate (y m d : Nat) : Bool :=
  1 ≤ m && m ≤ 12 && 1 ≤ d && d ≤ daysInMonth y m

/-- Parse a digit group with a length constraint (strptime field widths). -/
def parseNatLen (l : List Char) (lo hi : Nat) : Option Nat :=
  if lo ≤ l.length ∧ l.length ≤ hi then parseNatChars l else none

/-- strptime with format "%m/%d/%Y %I:%M:%S %p" (12-hour clock with AM/PM). -/
def parse12h (s : String) : Option DateTimePart :=
  match s.data.splitOn ' ' with
  | [ds, ts, ap] =>
    match ds.splitOn '/', ts.splitOn ':' with
    | [ms, dls, ys], [hs, mins, ss] =>
      match parseNatLen ms 1 2, parseNatLen dls 1 2, parseNatLen ys 4 4,
            parseNatLen hs 1 2, parseNatLen mins 1 2, parseNatLen ss 1 2 with
      | some m, some d, some y, some h, some mi, some se =>
        if validDate y m d && 1 ≤ h && h ≤ 12 && mi ≤ 59 && se ≤ 59 then
          if ap = ['A', 'M'] then some ⟨m, d, y, if h = 12 then 0 else h, mi, se⟩
          else if ap = ['P', 'M'] then some ⟨m, d, y, if h = 12 then 12 else h + 12, mi, se⟩
          else none
        else none
      | _, _, _, _, _, _ => none
    | _, _ => none
  | _ => none

/-- strptime with format "%m/%d/%Y %H:%M:%S" (24-hour clock). -/
def parse24h (s : String) : Option DateTimePart :=
  match s.data.splitOn ' ' with
  | [ds, ts] =>
    match ds.splitOn '/', ts.splitOn ':' with
    | [ms, dls, ys], [hs, mins, ss] =>
      match parseNatLen ms 1 2, parseNatLen dls 1 2, parseNatLen ys 4 4,
            parseNatLen hs 1 2, parseNatLen mins 1 2, parseNatLen ss 1 2 with
      | some m, some d, some y, some h, some mi, some se =>
        if validDate y m d && h ≤ 23 && mi ≤ 59 && se ≤ 59 then
          some ⟨m, d, y, h, mi, se⟩
        else none
      | _, _, _, _, _, _ => none
    | _, _ => none
  | _ => none

/-- strptime with format "%m/%d/%Y" (date only, used for ActivityDate). -/
def parseDateOnly (s : String) : Option DateTimePart :=
  match s.data.splitOn ' ' with
  | [ds] =>
    match ds.splitOn '/' with
    | [ms, dls, ys] =>
      match parseNatLen ms 1 2, parseNatLen dls 1 2, parseNatLen ys 4 4 with
      | some m, some d, some y => if validDate y m d then some ⟨m, d, y, 0, 0, 0⟩ else none
      | _, _, _ => none
    | _ => none
  | _ => none

/-- `.dt.normalize()`: truncate a timestamp to its day. -/
def dayOf (p : DateTimePart) : Day := ⟨p.year, p.month, p.day⟩

/-- Cell-wise primary-format parse: `to_datetime` with a format only parses
string cells; anything else coerces to null. -/
def cell12 (v : Val) : Option DateTimePart :=
  match v with
  | Val.str s => parse12h s
  | _ => none

def cell24 (v : Val) : Option DateTimePart :=
  match v with
  | Val.str s => parse24h s
  | _ => none

def cellDateOnly (v : Val) : Option DateTimePart :=
  match v with
  | Val.str s => parseDateOnly s
  | _ => none

def optValDt : Option DateTimePart → Val
  | some p => Val.dt p
  | none => Val.null

def optValDay : Option DateTimePart → Val
  | some p => Val.date (dayOf p)
  | none => Val.null

/-- Daily-activity date stage (src lines 64-66): parse ActivityDate with
"%m/%d/%Y" coercing failures, and add the normalized `date` column. -/
def parseDailyStage (t : Table) : Table :=
  if "ActivityDate" ∈ t.cols then
    { cols := addCol t.cols "date",
      rows := t.rows.map (fun r =>
        let p := cellDateOnly (Row.get r "ActivityDate")
        setCell (setCell r "ActivityDate" (optValDt p)) "date" (optValDay p)) }
  else t

/-- Sleep date stage (src lines 68-70): parse SleepDay with
"%m/%d/%Y %I:%M:%S %p" coercing failures, and add the normalized `date`
column.  There is no fallback format on this path. -/
def parseSleepStage (t : Table) : Table :=
  if "SleepDay" ∈ t.cols then
    { cols := addCol t.cols "date",
      rows := t.rows.map (fun r =>
        let p := cell12 (Row.get r "SleepDay")
        setCell (setCell r "SleepDay" (optValDt p)) "date" (optValDay p)) }
  else t

/-- Heart-rate date stage (src lines 78-87): probe for the Time or the
ActivitySecond column; parse the whole column with the 12-hour format if
every cell parses (`errors="raise"` succeeding), otherwise reparse the whole
column with the 24-hour format coercing failures; add the normalized `date`. -/
def parseHeartStage (t : Table) : Table :=
  match (if "Time" ∈ t.cols then some "Time"
         else if "ActivitySecond" ∈ t.cols then some "ActivitySecond" else none) with
  | none => t
  | some tc =>
    let pf : Val → Option DateTimePart :=
      if t.rows.all (fun r => (cell12 (Row.get r tc)).isSome) then cell12 else cell24
    { cols := addCol t.cols "date",
      rows := t.rows.map (fun r =>
        let p := pf (Row.get r tc)
        setCell (setCell r tc (optValDt p)) "date" (optValDay p)) }

/- ### Ordering, sorting and deduplication (src lines 90-93) -/

/-- The (Subject, Day) key of a row: its Id and date cells. -/
def rowKey (r : Row) : Val × Val := (Row.get r "Id", Row.get r "date")

/-- Cell order used when sorting by a key column; null sorts last
(pandas `na_position="last"`). -/
def valLe : Val → Val → Bool
  | _, Val.null => true
  | Val.null, _ => false
  | Val.str a, Val.str b => decide (a ≤ b)
  | Val.int a, Val.int b => decide (a ≤ b)
  | Val.rat a, Val.rat b => decide (a ≤ b)
  | Val.bool a, Val.bool b => !a || b
  | Val.date a, Val.date b =>
      decide (a.year < b.year ∨ (a.year = b.year ∧
        (a.month < b.month ∨ (a.month = b.month ∧ a.day ≤ b.day))))
  | _, _ => true

/-- Lexicographic order on (Subject, Day) keys. -/
def keyLe (a b : Val × Val) : Bool :=
  if a.1 = b.1 then valLe a.2 b.2 else valLe a.1 b.1

/-- Stable insertion: an element goes before the first element it is ≤ to. -/
def insertBy (le : α → α → Bool) (a : α) : List α → List α
  | [] => [a]
  | x :: xs => if le a x then a :: x :: xs else x :: insertBy le a xs

/-- Stable insertion sort, modelling the stable multi-key
`sort_values(["Id","date"])` (pandas lexsort is stable for multiple keys). -/
def sortBy (le : α → α → Bool) : List α → List α
  | [] => []
  | a :: as => insertBy le a (sortBy le as)

/-- Keep the first element of each fiber of `f` (models
`drop_duplicates(keep="first")` scanning rows in order). -/
def dedupByAux [DecidableEq β] (f : α → β) : List β → List α → List α
  | _, [] => []
  | seen, a :: as =>
      if f a ∈ seen then dedupByAux f seen as
      else a :: dedupByAux f (f a :: seen) as

def dedupBy [DecidableEq β] (f : α → β) (l : List α) : List α := dedupByAux f [] l

/-- Dedup stage (src lines 90-93): when the table has both key columns,
stable-sort by (Id, date) then keep the first row of each key. -/
def dedupe (t : Table) : Table :=
  if "Id" ∈ t.cols ∧ "date" ∈ t.cols then
    { cols := t.cols,
      rows := dedupBy rowKey (sortBy (fun a b => keyLe (rowKey a) (rowKey b)) t.rows) }
  else t

/- ### Heart-rate daily aggregation (src lines 96-105) -/

/-- numpy round-half-to-even of a rational to an integer. -/
def rhalfEven (q : Rat) : Int :=
  let f := q.floor
  let r := q - (f : Rat)
  if r < 1 / 2 then f
  else if 1 / 2 < r then f + 1
  else if f % 2 = 0 then f else f + 1

/-- `.round(1)`: round-half-to-even at one decimal place. -/
def round1 (q : Rat) : Rat := ((rhalfEven (q * 10) : Int) : Rat) / 10

def listMax : List Rat → Option Rat
  | [] => none
  | x :: xs => some (xs.foldl max x)

def listMin : List Rat → Option Rat
  | [] => none
  | x :: xs => some (xs.foldl min x)

def listMean : List Rat → Option Rat
  | [] => none
  | x :: xs => some ((x :: xs).sum / ((x :: xs).length : Rat))

def optRatVal : Option Rat → Val
  | some q => Val.rat q
  | none => Val.null

/-- Group keys of a table under (Id, date): null-keyed rows are dropped
(pandas `groupby` default `dropna=True`), first occurrences kept, and the
keys sorted (pandas `groupby` default `sort=True`). -/
def groupKeys (rows : List Row) : List (Val × Val) :=
  sortBy keyLe (dedupBy id ((rows.map rowKey).filter
    (fun k => decide (k.1 ≠ Val.null ∧ k.2 ≠ Val.null))))

/-- One aggregate row of `hr_day` for key `k`: mean/max/min of the non-null
Values of the group (rounded to one decimal, src line 102) and the group
size. -/
def hrRowFor (rows : List Row) (k : Val × Val) : Row :=
  let g := rows.filter (fun r => decide (rowKey r = k))
  let nums := g.filterMap (fun r => toRatQ (Row.get r "Value"))
  [("Id", k.1), ("date", k.2),
   ("AvgHR", optRatVal ((listMean nums).map round1)),
   ("MaxHR", optRatVal ((listMax nums).map round1)),
   ("MinHR", optRatVal ((listMin nums).map round1)),
   ("HRCount", Val.int (g.length : Int))]

def hrSchema : List String := ["Id", "date", "AvgHR", "MaxHR", "MinHR", "HRCount"]

/-- The empty heart-rate daily aggregate with the expected schema (src line 104). -/
def emptyHr : Table := { cols := hrSchema, rows := [] }

/-- `hr_day` (src lines 96-105): daily aggregate of heart-rate samples, or
the empty schema table when the needed columns are absent. -/
def hrDay (heart : Table) : Table :=
  if "Value" ∈ heart.cols ∧ "Id" ∈ heart.cols ∧ "date" ∈ heart.cols then
    { cols := hrSchema, rows := (groupKeys heart.rows).map (hrRowFor heart.rows) }
  else emptyHr

/- ### Join engine (src lines 108-125) -/

/-- `safe_cols` (src lines 108-109). -/
def safeCols (t : Table) (cs : List String) : List String := cs.filter (fun c => c ∈ t.cols)

/-- `df[cs]`: projection onto a column list. -/
def projTable (t : Table) (cs : List String) : Table :=
  { cols := cs, rows := t.rows.map (fun r => projRow r cs) }

def keepCols : List String :=
  ["Id", "date", "TotalSteps", "Calories", "SedentaryMinutes",
   "VeryActiveMinutes", "LightlyActiveMinutes"]

def numCols : List String :=
  ["TotalSteps", "Calories", "SedentaryMinutes", "VeryActiveMinutes",
   "LightlyActiveMinutes", "TotalMinutesAsleep", "AvgHR", "MaxHR", "MinHR", "HRCount"]

/-- Columns the right side contributes to a merge on (Id, date). -/
def rightOnly (r : Table) : List String :=
  r.cols.filter (fun c => decide (c ≠ "Id" ∧ c ≠ "date"))

/-- Row block a left row produces in a left merge: one row per matching right
row, or the null-extended left row when nothing matches. -/
def mergeBlock (rl : Row) (rt : List Row) (ext : List String) : List Row :=
  match rt.filter (fun rr => decide (rowKey rr = rowKey rl)) with
  | [] => [rl ++ nullExtRow ext]
  | ms => ms.map (fun rr => rl ++ projRow rr ext)

def mergeRows (lt rt : List Row) (ext : List String) : List Row :=
  lt.flatMap (fun rl => mergeBlock rl rt ext)

/-- `l.merge(r, on=["Id","date"], how="left")`: raises KeyError (modelled as
`Except.error`) when either frame lacks a key column. -/
def mergeLeft (l r : Table) : Except String Table :=
  if "Id" ∈ l.cols ∧ "date" ∈ l.cols ∧ "Id" ∈ r.cols ∧ "date" ∈ r.cols then
    Except.ok { cols := l.cols ++ rightOnly r, rows := mergeRows l.rows r.rows (rightOnly r) }
  else Except.error "KeyError"

/-- `pd.to_numeric(cell, errors="coerce")` on a post-join cell. -/
def toNumericVal (v : Val) : Val :=
  match v with
  | Val.int n => Val.int n
  | Val.rat q => Val.rat q
  | Val.bool b => Val.int (if b then 1 else 0)
  | Val.str s => (parseRatStr s).elim Val.null Val.rat
  | _ => Val.null

/-- Post-join numeric coercion (src lines 118-122). -/
def coerceRow (present : List String) (r : Row) : Row :=
  numCols.foldl (fun r2 c => if c ∈ present then setCell r2 c (toNumericVal (Row.get r2 c)) else r2) r

def coerceNumeric (t : Table) : Table :=
  { cols := t.cols, rows := t.rows.map (coerceRow t.cols) }

/-- Zeller weekday index of a day; 0 = Saturday. -/
def zeller (d : Day) : Nat :=
  let mm := if d.month < 3 then d.month + 12 else d.month
  let yy := if d.month < 3 then d.year - 1 else d.year
  (d.day + (13 * (mm + 1)) / 5 + yy % 100 + yy % 100 / 4 + yy / 100 / 4 + 5 * (yy / 100)) % 7

def dayName (d : Day) : String :=
  (["Saturday", "Sunday", "Monday", "Tuesday", "Wednesday", "Thursday", "Friday"].getD
    (zeller d) "")

/-- Weekday column (src lines 124-125): day name per non-null date, else null. -/
def addWeekday (t : Table) : Table :=
  if "date" ∈ t.cols then
    { cols := addCol t.cols "weekday",
      rows := t.rows.map (fun r =>
        setCell r "weekday"
          (match Row.get r "date" with
           | Val.date d => Val.str (dayName d)
           | _ => Val.null)) }
  else t

/-- The analysis-table construction (src lines 58-125): identifier
normalization, date parsing, dedup, heart-rate aggregation, the left-join
chain from activity, numeric coercion, and the weekday column.  Each source
is optional, as after `read_csv_safe`. -/
def joinedOf (daily sleep heart : Option Table) : Except String Table :=
  let dailyP := daily.map (fun t => dedupe (parseDailyStage (normId t)))
  let sleepP := sleep.map (fun t => dedupe (parseSleepStage (normId t)))
  let heartP := heart.map (fun t => parseHeartStage (normId t))
  let hrT := match heartP with
    | some h => hrDay h
    | none => emptyHr
  let df0 := match dailyP with
    | some d => projTable d (safeCols d keepCols)
    | none => { cols := keepCols, rows := [] }
  let step1 := match sleepP with
    | some s => mergeLeft df0 (projTable s (safeCols s ["Id", "date", "TotalMinutesAsleep"]))
    | none => Except.ok df0
  match step1 with
  | Except.error e => Except.error e
  | Except.ok df1 =>
      match mergeLeft df1 hrT with
      | Except.error e => Except.error e
      | Except.ok df2 => Except.ok (addWeekday (coerceNumeric df2))

/- ### Quality filter (src lines 127-132) -/

/-- Sorted-middle median with even-count interpolation, skipping nulls; the
undefined median (no numeric values) is null. -/
def medianQ (l : List Rat) : Option Rat :=
  let s := sortBy (fun a b => decide (a ≤ b)) l
  let n := s.length
  if n = 0 then none
  else if n % 2 = 1 then s.get? (n / 2)
  else match s.get? (n / 2 - 1), s.get? (n / 2) with
    | some a, some b => some ((a + b) / 2)
    | _, _ => none

/-- `df["Calories"].median(skipna=True)` if the column exists, else NaN (src line 128). -/
def calMedian (t : Table) : Option Rat :=
  if "Calories" ∈ t.cols then
    medianQ (t.rows.filterMap (fun r => toRatQ (Row.get r "Calories")))
  else none

/-- One row's `zero_step_high_cal` (src line 129).  `df.get(c, 0)` yields the
column when present and the scalar 0 only when the whole column is absent;
comparisons against a null cell or a null median are false. -/
def zeroStepFlag (t : Table) (r : Row) : Bool :=
  (if "TotalSteps" ∈ t.cols then decide (toRatQ (Row.get r "TotalSteps") = some 0) else true)
  && (match (if "Calories" ∈ t.cols then toRatQ (Row.get r "Calories") else some 0),
            calMedian t with
      | some c, some m => decide (m < c)
      | _, _ => false)

/-- The QC-flag stage (src lines 129-130): adds `zero_step_high_cal` and its
negation `valid_row` to every row. -/
def qcFlags (t : Table) : Table :=
  { cols := addCol (addCol t.cols "zero_step_high_cal") "valid_row",
    rows := t.rows.map (fun r =>
      setCell (setCell r "zero_step_high_cal" (Val.bool (zeroStepFlag t r)))
        "valid_row" (Val.bool (!zeroStepFlag t r))) }

/-- `df_valid = df[df["valid_row"]]` (src line 131). -/
def dfValid (t : Table) : Table :=
  { cols := (qcFlags t).cols,
    rows := (qcFlags t).rows.filter (fun r => decide (Row.get r "valid_row" = Val.bool true)) }

/- ### Basic row lemmas -/

theorem get_eq_null_of_names (r : Row) (c : String) (h : ∀ p ∈ r, p.1 ≠ c) :
    Row.get r c = Val.null := by
  induction r with
  | nil => rfl
  | cons p r ih =>
      have hp := h p (List.mem_cons_self _ _)
      simp only [Row.get, if_neg hp]
      exact ih (fun q hq => h q (List.mem_cons_of_mem _ hq))

theorem get_append_of_names (r1 r2 : Row) (c : String) (h : ∀ p ∈ r2, p.1 ≠ c) :
    Row.get (r1 ++ r2) c = Row.get r1 c := by
  induction r1 with
  | nil => simpa using get_eq_null_of_names r2 c h
  | cons p r ih =>
      by_cases hp : p.1 = c
      · simp [Row.get, hp]
      · simp [Row.get, hp, ih]

theorem get_eraseCol_ne (r : Row) (c c2 : String) (h : c2 ≠ c) :
    Row.get (eraseCol r c) c2 = Row.get r c2 := by
  have hcc : ¬ c = c2 := fun hc => h hc.symm
  induction r with
  | nil => rfl
  | cons p r ih =>
      by_cases hp : p.1 = c
      · rw [show eraseCol (p :: r) c = eraseCol r c from by simp [eraseCol, hp]]
        rw [ih]
        have hp2 : ¬ p.1 = c2 := by rw [hp]; exact hcc
        simp [Row.get, hp2]
      · rw [show eraseCol (p :: r) c = p :: eraseCol r c from by simp [eraseCol, hp]]
        by_cases hp2 : p.1 = c2
        · simp [Row.get, hp2]
        · simp [Row.get, hp2, ih]

theorem get_setCell_same (r : Row) (c : String) (v : Val) :
    Row.get (setCell r c v) c = v := by
  simp [setCell, Row.get]

theorem get_setCell_ne (r : Row) (c c2 : String) (v : Val) (h : c2 ≠ c) :
    Row.get (setCell r c v) c2 = Row.get r c2 := by
  have : ¬ c = c2 := fun hc => h hc.symm
  simp [setCell, Row.get, this, get_eraseCol_ne r c c2 h]

theorem get_projRow (r : Row) (cs : List String) (c : String) :
    Row.get (projRow r cs) c = if c ∈ cs then Row.get r c else Val.null := by
  induction cs with
  | nil => simp [projRow, Row.get]
  | cons c2 cs ih =>
      by_cases hc : c2 = c
      · subst hc; simp [projRow, Row.get]
      · rw [show projRow r (c2 :: cs) = (c2, Row.get r c2) :: projRow r cs from rfl]
        rw [show Row.get ((c2, Row.get r c2) :: projRow r cs) c = Row.get (projRow r cs) c from by
          simp [Row.get, hc]]
        rw [ih]
        by_cases hm : c ∈ cs
        · rw [if_pos hm, if_pos (List.mem_cons_of_mem _ hm)]
        · rw [if_neg hm, if_neg (by
            simp only [List.mem_cons]
            exact fun h => h.elim (fun h1 => hc h1.symm) hm)]

theorem rowKey_setCell (r : Row) (c : String) (v : Val) (h1 : c ≠ "Id") (h2 : c ≠ "date") :
    rowKey (setCell r c v) = rowKey r := by
  simp [rowKey, get_setCell_ne _ _ _ _ (fun hc => h1 hc.symm),
    get_setCell_ne _ _ _ _ (fun hc => h2 hc.symm)]

theorem rowKey_append_of_names (r1 r2 : Row) (h : ∀ p ∈ r2, p.1 ≠ "Id" ∧ p.1 ≠ "date") :
    rowKey (r1 ++ r2) = rowKey r1 := by
  simp [rowKey, get_append_of_names r1 r2 "Id" (fun p hp => (h p hp).1),
    get_append_of_names r1 r2 "date" (fun p hp => (h p hp).2)]

theorem rowKey_projRow (r : Row) (cs : List String) (h1 : "Id" ∈ cs) (h2 : "date" ∈ cs) :
    rowKey (projRow r cs) = rowKey r := by
  simp [rowKey, get_projRow, h1, h2]

/- ### Sorting and dedup lemmas -/

theorem insertBy_perm (le : α → α → Bool) (a : α) (l : List α) :
    List.Perm (insertBy le a l) (a :: l) := by
  induction l with
  | nil => exact List.Perm.refl _
  | cons x xs ih =>
      by_cases hx : le a x
      · simp [insertBy, hx]
      · simp only [insertBy, hx, if_neg, Bool.false_eq_true, not_false_iff]
        exact List.Perm.trans (List.Perm.cons x ih) (List.Perm.swap a x xs)

theorem sortBy_perm (le : α → α → Bool) (l : List α) : List.Perm (sortBy le l) l := by
  induction l with
  | nil => exact List.Perm.refl _
  | cons a as ih =>
      exact List.Perm.trans (insertBy_perm le a (sortBy le as)) (List.Perm.cons a ih)

theorem countP_dedupByAux [DecidableEq β] (f : α → β) (k : β) :
    ∀ (l : List α) (seen : List β),
      (dedupByAux f seen l).countP (fun a => decide (f a = k))
        = if k ∈ seen then 0 else if k ∈ l.map f then 1 else 0 := by
  intro l
  induction l with
  | nil => intro seen; by_cases hk : k ∈ seen <;> simp [dedupByAux, hk]
  | cons a as ih =>
      intro seen
      by_cases hfa : f a ∈ seen
      · rw [show dedupByAux f seen (a :: as) = dedupByAux f seen as from by
          simp [dedupByAux, hfa]]
        rw [ih seen]
        by_cases hk : k ∈ seen
        · simp [hk]
        · have hka : ¬ k = f a := fun h => hk (h ▸ hfa)
          simp [hk, List.mem_cons, hka]
      · rw [show dedupByAux f seen (a :: as) = a :: dedupByAux f (f a :: seen) as from by
          simp [dedupByAux, hfa]]
        rw [List.countP_cons, ih (f a :: seen)]
        by_cases hka : k = f a
        · subst hka
          simp [hfa, List.mem_cons]
        · have : ¬ f a = k := fun h => hka h.symm
          by_cases hk : k ∈ seen <;>
            simp [hk, List.mem_cons, hka, this]

theorem find?_dedupByAux [DecidableEq β] (f : α → β) (k : β) :
    ∀ (l : List α) (seen : List β), k ∉ seen →
      (dedupByAux f seen l).find? (fun a => decide (f a = k))
        = l.find? (fun a => decide (f a = k)) := by
  intro l
  induction l with
  | nil => intro seen _; rfl
  | cons a as ih =>
      intro seen hk
      by_cases hfa : f a ∈ seen
      · have hka : ¬ f a = k := fun h => hk (h ▸ hfa)
        rw [show dedupByAux f seen (a :: as) = dedupByAux f seen as from by
          simp [dedupByAux, hfa]]
        rw [ih seen hk, List.find?_cons_of_neg _ (by simp [hka])]
      · rw [show dedupByAux f seen (a :: as) = a :: dedupByAux f (f a :: seen) as from by
          simp [dedupByAux, hfa]]
        by_cases hka : f a = k
        · rw [List.find?_cons_of_pos _ (by simp [hka]), List.find?_cons_of_pos _ (by simp [hka])]
        · have hk2 : k ∉ f a :: seen := by
            simp only [List.mem_cons]
            exact fun h => h.elim (fun h1 => hka h1.symm) hk
          rw [List.find?_cons_of_neg _ (by simp [hka]), List.find?_cons_of_neg _ (by simp [hka])]
          exact ih (f a :: seen) hk2

/- ### Digit round-trip lemmas (for identifier idempotence) -/

theorem charDigit_digitChar (d : Nat) (h : d < 10) : charDigit (digitChar d) = d := by
  interval_cases d <;> rfl

theorem isDigitCh_digitChar (d : Nat) (h : d < 10) : isDigitCh (digitChar d) = true := by
  interval_cases d <;> rfl

theorem natReprAux_spec :
    ∀ (fuel n : Nat), n < fuel →
      natReprAux fuel n ≠ []
        ∧ (natReprAux fuel n).all isDigitCh = true
        ∧ (natReprAux fuel n).foldl (fun a c => a * 10 + charDigit c) 0 = n := by
  intro fuel
  induction fuel with
  | zero => intro n hn; omega
  | succ fuel ih =>
      intro n hn
      by_cases h10 : n < 10
      · rw [show natReprAux (fuel + 1) n = [digitChar n] from by simp [natReprAux, h10]]
        refine ⟨by simp, ?_, ?_⟩
        · simp [List.all_cons, isDigitCh_digitChar n h10]
        · simp [charDigit_digitChar n h10]
      · rw [show natReprAux (fuel + 1) n
            = natReprAux fuel (n / 10) ++ [digitChar (n % 10)] from by simp [natReprAux, h10]]
        have hlt : n / 10 < fuel := by omega
        obtain ⟨hne, hall, hval⟩ := ih (n / 10) hlt
        refine ⟨by simp, ?_, ?_⟩
        · simp only [List.all_append, hall, List.all_cons, List.all_nil,
            isDigitCh_digitChar (n % 10) (Nat.mod_lt _ (by omega)), Bool.and_self]
        · rw [List.foldl_append, hval]
          simp [charDigit_digitChar (n % 10) (Nat.mod_lt _ (by omega))]
          omega

theorem parseNatChars_natRepr (n : Nat) : parseNatChars (natRepr n).data = some n := by
  obtain ⟨hne, hall, hval⟩ := natReprAux_spec (n + 1) n (Nat.lt_succ_self n)
  show parseNatChars (natReprAux (n + 1) n) = some n
  rw [parseNatChars, if_pos ⟨hne, hall⟩, hval]

theorem isDigitCh_ne_minus (c : Char) (h : isDigitCh c = true) : ¬ c = '-' := by
  intro hc
  subst hc
  simp [isDigitCh] at h

theorem parseIntStr_data_cons (s : String) (c : Char) (l : List Char)
    (hd : s.data = c :: l) (hc : ¬ c = '-') :
    parseIntStr s = (parseNatChars (c :: l)).map (fun n => (n : Int)) := by
  simp only [parseIntStr, hd, if_neg hc]

theorem parseIntStr_data_neg (s : String) (l : List Char) (hd : s.data = '-' :: l) :
    parseIntStr s = (parseNatChars l).map (fun n => -(n : Int)) := by
  simp [parseIntStr, hd]

theorem parseIntStr_intRepr (k : Int) : parseIntStr (intRepr k) = some k := by
  by_cases hk : k < 0
  · rw [intRepr, if_pos hk]
    have hdata : ("-" ++ natRepr k.natAbs).data = '-' :: (natRepr k.natAbs).data := rfl
    rw [parseIntStr_data_neg _ _ hdata, parseNatChars_natRepr k.natAbs]
    simp only [Option.map_some', Option.bind_some, Option.bind_eq_bind, Option.pure_def,
      Option.some_bind]
    congr 1
    omega
  · rw [intRepr, if_neg hk]
    obtain ⟨hne, hall, _⟩ := natReprAux_spec (k.toNat + 1) k.toNat (Nat.lt_succ_self _)
    have hne2 : (natRepr k.toNat).data ≠ [] := hne
    have hall2 : ((natRepr k.toNat).data).all isDigitCh = true := hall
    rcases hd : (natRepr k.toNat).data with _ | ⟨c, rest⟩
    · exact absurd hd hne2
    · have hc : isDigitCh c = true := by
        rw [hd] at hall2
        simp [List.all_cons] at hall2
        exact hall2.1
      rw [parseIntStr_data_cons _ c rest hd (isDigitCh_ne_minus c hc)]
      rw [← hd, parseNatChars_natRepr k.toNat]
      simp only [Option.map_some', Option.bind_some, Option.bind_eq_bind, Option.pure_def,
        Option.some_bind]
      congr 1
      omega

/- ### C7: the source loader contract -/

/-- C7: for every filesystem state and path, `read_csv_safe` returns either a
parsed table or an explicit absent result; absent exactly when the file is
missing or fails to parse as CSV, and in either case a diagnostic naming the
source path is emitted. -/
theorem read_csv_safe_contract (fs : String → FileContent) (path : String) :
    ((read_csv_safe fs path).1 = none
        ↔ fs path = FileContent.missing ∨ fs path = FileContent.malformed)
    ∧ ((read_csv_safe fs path).1 = none →
        ∃ msg ∈ (read_csv_safe fs path).2, ∃ pre : List Char, msg.data = pre ++ path.data)
    ∧ (∀ t, (read_csv_safe fs path).1 = some t → fs path = FileContent.parsed t) := by
  rcases h : fs path with _ | _ | t
  · refine ⟨by simp [read_csv_safe, h], ?_, by simp [read_csv_safe, h]⟩
    intro _
    refine ⟨logMsg ("Missing file: " ++ path), by simp [read_csv_safe, h], ?_⟩
    exact ⟨("[Fitbit-EDA] " ++ "Missing file: ").data, by simp [logMsg, String.data_append]⟩
  · refine ⟨by simp [read_csv_safe, h], ?_, by simp [read_csv_safe, h]⟩
    intro _
    refine ⟨logMsg ("Failed to read " ++ path), by simp [read_csv_safe, h], ?_⟩
    exact ⟨("[Fitbit-EDA] " ++ "Failed to read ").data, by simp [logMsg, String.data_append]⟩
  · refine ⟨by simp [read_csv_safe, h], by simp [read_csv_safe, h], ?_⟩
    intro t2 ht
    have ht2 : t = t2 := by simpa [read_csv_safe, h] using ht
    rw [ht2]

/-- Witness for C7 at a concrete filesystem and path. -/
theorem read_csv_safe_contract_witness :
    ((read_csv_safe (fun _ => FileContent.missing) "data.csv").1 = none
        ↔ (fun _ => FileContent.missing : String → FileContent) "data.csv" = FileContent.missing
          ∨ (fun _ => FileContent.missing : String → FileContent) "data.csv"
              = FileContent.malformed) :=
  (read_csv_safe_contract (fun _ => FileContent.missing) "data.csv").1

/- ### C9: the identifier normalizer frame -/

theorem mapExcept_eq_map (f : α → Except String β) (g : α → β) (l : List α)
    (h : ∀ a ∈ l, f a = Except.ok (g a)) : mapExcept f l = Except.ok (l.map g) := by
  induction l with
  | nil => rfl
  | cons a as ih =>
      rw [show mapExcept f (a :: as)
          = (match f a with
             | Except.error e => Except.error e
             | Except.ok b =>
                 match mapExcept f as with
                 | Except.error e => Except.error e
                 | Except.ok bs => Except.ok (b :: bs)) from rfl]
      rw [h a (List.mem_cons_self _ _),
        ih (fun a2 ha2 => h a2 (List.mem_cons_of_mem _ ha2))]
      rfl

theorem mapExcept_error_exists (f : α → Except String β) (l : List α)
    (h : ∃ a ∈ l, ∃ e, f a = Except.error e) :
    ∃ e2, mapExcept f l = Except.error e2 := by
  induction l with
  | nil =>
      obtain ⟨a, ha, _⟩ := h
      exact absurd ha (List.not_mem_nil a)
  | cons a as ih =>
      obtain ⟨a2, ha2, e, he⟩ := h
      rcases hfa : f a with e1 | b
      · refine ⟨e1, ?_⟩
        show (match f a with
              | Except.error e => Except.error e
              | Except.ok b =>
                  match mapExcept f as with
                  | Except.error e => Except.error e
                  | Except.ok bs => Except.ok (b :: bs)) = Except.error e1
        rw [hfa]
      · have ha2as : a2 ∈ as := by
          rcases List.mem_cons.mp ha2 with h1 | h1
          · subst h1
            rw [hfa] at he
            cases he
          · exact h1
        obtain ⟨e2, he2⟩ := ih ⟨a2, ha2as, e, he⟩
        refine ⟨e2, ?_⟩
        show (match f a with
              | Except.error e => Except.error e
              | Except.ok b =>
                  match mapExcept f as with
                  | Except.error e => Except.error e
                  | Except.ok bs => Except.ok (b :: bs)) = Except.error e2
        rw [hfa, he2]

def c9Table : Table := ⟨["Id"], [[("Id", Val.str "12.5")]]⟩

/-- C9 counterexample: on a table whose Id cell is the non-integral numeric
string "12.5", the identifier normalizer raises (the `astype("Int64")`
cast fails with TypeError) instead of returning a table, so it does not
return a frame-preserving table for every table with an Id column. -/
theorem normIdE_nonintegral_raises :
    normIdE c9Table = Except.error "TypeError" := by
  with_unfolding_all rfl

/-- C9 (amended): tables without an Id column pass through unchanged; on a
table whose numeric Id cells are all exact 64-bit integers, the normalizer
returns a table with the same column list and the same number of rows in
the same order, changing only the Id column; a table with a numeric Id
cell the Int64 cast rejects (for example a non-integral value) makes the
normalizer raise instead of returning a table. -/
theorem normIdE_frame (t : Table) :
    ("Id" ∉ t.cols → normIdE t = Except.ok t)
    ∧ ("Id" ∈ t.cols →
        (∀ r ∈ t.rows, ∀ q : Rat,
          toNumericCell (Row.get r "Id") = some q → int64Castable q) →
        ∃ t2, normIdE t = Except.ok t2
          ∧ t2.cols = t.cols
          ∧ t2.rows.length = t.rows.length
          ∧ (∀ (i : Nat) (c : String), c ≠ "Id" →
              (t2.rows.get? i).map (fun r => Row.get r c)
                = (t.rows.get? i).map (fun r => Row.get r c)))
    ∧ ("Id" ∈ t.cols →
        (∃ r ∈ t.rows, ∃ q : Rat,
          toNumericCell (Row.get r "Id") = some q ∧ ¬ int64Castable q) →
        ∃ e, normIdE t = Except.error e) := by
  refine ⟨?_, ?_, ?_⟩
  · intro h
    rw [normIdE, if_neg h]
  · intro hid hgood
    rw [normIdE, if_pos hid]
    have hrows := mapExcept_eq_map
      (fun r => (canonIdValE (Row.get r "Id")).map (fun v => setCell r "Id" v))
      (fun r => setCell r "Id"
        (match toNumericCell (Row.get r "Id") with
         | none => Val.str "<NA>"
         | some q => Val.str (intRepr q.num)))
      t.rows
      (by
        intro r hr
        rcases hq : toNumericCell (Row.get r "Id") with _ | q
        · simp only [canonIdValE, hq]
          rfl
        · simp only [canonIdValE, hq, int64Cast, if_pos (hgood r hr q hq)]
          rfl)
    rw [hrows]
    refine ⟨_, rfl, rfl, by simp, ?_⟩
    intro i c hc
    simp only [List.get?_map]
    cases t.rows.get? i with
    | none => rfl
    | some r => simp [get_setCell_ne _ _ _ _ hc]
  · intro hid hbad
    rw [normIdE, if_pos hid]
    obtain ⟨r, hr, q, hq, hnc⟩ := hbad
    have hfr : (canonIdValE (Row.get r "Id")).map (fun v => setCell r "Id" v)
        = Except.error "TypeError" := by
      simp only [canonIdValE, hq, int64Cast, if_neg hnc]
      rfl
    obtain ⟨e2, he2⟩ := mapExcept_error_exists
      (fun r2 => (canonIdValE (Row.get r2 "Id")).map (fun v => setCell r2 "Id" v))
      t.rows ⟨r, hr, "TypeError", hfr⟩
    refine ⟨e2, ?_⟩
    rw [he2]
    rfl

/-- Witness for C9 (amended) at a concrete table with an integral Id cell. -/
theorem normIdE_frame_witness :
    ∃ t2, normIdE ⟨["Id", "Calories"], [[("Id", Val.str "7"), ("Calories", Val.int 9)]]⟩
        = Except.ok t2
      ∧ t2.cols
          = (⟨["Id", "Calories"],
              [[("Id", Val.str "7"), ("Calories", Val.int 9)]]⟩ : Table).cols
      ∧ t2.rows.length
          = (⟨["Id", "Calories"],
              [[("Id", Val.str "7"), ("Calories", Val.int 9)]]⟩ : Table).rows.length
      ∧ (∀ (i : Nat) (c : String), c ≠ "Id" →
          (t2.rows.get? i).map (fun r => Row.get r c)
            = ((⟨["Id", "Calories"],
                [[("Id", Val.str "7"), ("Calories", Val.int 9)]]⟩ : Table).rows.get? i).map
                (fun r => Row.get r c)) :=
  (normIdE_frame _).2.1 (by decide) (by
    intro r hr q hq
    simp only [List.mem_cons, List.not_mem_nil, or_false] at hr
    subst hr
    have h7 : toNumericCell
        (Row.get [("Id", Val.str "7"), ("Calories", Val.int 9)] "Id") = some 7 := by
      with_unfolding_all rfl
    rw [h7] at hq
    cases hq
    with_unfolding_all decide)

/- ### C8: idempotence of the identifier normalizer -/

/-- A cell already in the canonical form produced by `norm_id`: the decimal
string of an integer, or the unknown sentinel. -/
def isCanonicalId (v : Val) : Prop :=
  (∃ k : Int, v = Val.str (intRepr k)) ∨ v = Val.str "<NA>"

/-- C8: normalizing a table whose Id column is already canonical (including
the "<NA>" sentinel) leaves the Id column unchanged. -/
theorem normId_idempotent (t : Table) (h : ∀ r ∈ t.rows, isCanonicalId (Row.get r "Id")) :
    (normId t).rows.map (fun r => Row.get r "Id") = t.rows.map (fun r => Row.get r "Id") := by
  by_cases hc : "Id" ∈ t.cols
  · rw [normId, if_pos hc]
    simp only [List.map_map]
    refine List.map_congr_left ?_
    intro r hr
    simp only [Function.comp_apply, get_setCell_same]
    rcases h r hr with ⟨k, hk⟩ | hna
    · rw [hk]
      simp [canonIdVal, toNumericInt, parseIntStr_intRepr k]
    · rw [hna]
      rfl
  · rw [normId, if_neg hc]

/-- Witness for C8 at a concrete canonical table. -/
theorem normId_idempotent_witness :
    (normId ⟨["Id"], [[("Id", Val.str "15")], [("Id", Val.str "<NA>")]]⟩).rows.map
        (fun r => Row.get r "Id")
      = (⟨["Id"], [[("Id", Val.str "15")], [("Id", Val.str "<NA>")]]⟩ : Table).rows.map
        (fun r => Row.get r "Id") := by
  refine normId_idempotent _ ?_
  intro r hr
  simp only [List.mem_cons, List.not_mem_nil, or_false] at hr
  rcases hr with h | h
  · exact Or.inl ⟨15, by rw [h]; decide⟩
  · exact Or.inr (by rw [h]; rfl)

/- ### C3: deduplication -/

/-- C3: for a table with both key columns, dedup yields exactly one row per
(Subject, Day) key present in the input, and the row kept for each key is
the first row carrying that key in the stably sorted input. -/
theorem dedupe_spec (t : Table) (h1 : "Id" ∈ t.cols) (h2 : "date" ∈ t.cols) :
    (∀ k, (dedupe t).rows.countP (fun r => decide (rowKey r = k))
        = if k ∈ t.rows.map rowKey then 1 else 0)
    ∧ (∀ k, (dedupe t).rows.find? (fun r => decide (rowKey r = k))
        = (sortBy (fun a b => keyLe (rowKey a) (rowKey b)) t.rows).find?
            (fun r => decide (rowKey r = k))) := by
  rw [dedupe, if_pos ⟨h1, h2⟩]
  constructor
  · intro k
    rw [show dedupBy rowKey (sortBy (fun a b => keyLe (rowKey a) (rowKey b)) t.rows)
        = dedupByAux rowKey [] (sortBy (fun a b => keyLe (rowKey a) (rowKey b)) t.rows) from rfl]
    rw [countP_dedupByAux rowKey k]
    have hperm := (sortBy_perm (fun a b => keyLe (rowKey a) (rowKey b)) t.rows).map rowKey
    simp [hperm.mem_iff]
  · intro k
    exact find?_dedupByAux rowKey k _ [] (List.not_mem_nil k)

/-- Witness for C3: a concrete sleep-like table with a duplicate key. -/
theorem dedupe_spec_witness :
    (dedupe ⟨["Id", "date", "TotalMinutesAsleep"],
        [[("Id", Val.str "1"), ("date", Val.date ⟨2016, 4, 12⟩), ("TotalMinutesAsleep", Val.int 400)],
         [("Id", Val.str "1"), ("date", Val.date ⟨2016, 4, 12⟩), ("TotalMinutesAsleep", Val.int 300)]]⟩).rows.countP
        (fun r => decide (rowKey r = (Val.str "1", Val.date ⟨2016, 4, 12⟩)))
      = if (Val.str "1", Val.date ⟨2016, 4, 12⟩) ∈
          (⟨["Id", "date", "TotalMinutesAsleep"],
            [[("Id", Val.str "1"), ("date", Val.date ⟨2016, 4, 12⟩), ("TotalMinutesAsleep", Val.int 400)],
             [("Id", Val.str "1"), ("date", Val.date ⟨2016, 4, 12⟩), ("TotalMinutesAsleep", Val.int 300)]]⟩ :
              Table).rows.map rowKey
        then 1 else 0 :=
  (dedupe_spec _ (by decide) (by decide)).1 (Val.str "1", Val.date ⟨2016, 4, 12⟩)

/- ### C10: degenerate quality filter -/

/-- C10: when the Calories column is absent or entirely null, the median is
undefined, no row is flagged, every row is valid, and the valid subset is
the whole flagged table. -/
theorem qc_degenerate (t : Table)
    (h : "Calories" ∉ t.cols ∨ ∀ r ∈ t.rows, toRatQ (Row.get r "Calories") = none) :
    (∀ r ∈ (qcFlags t).rows,
        Row.get r "zero_step_high_cal" = Val.bool false
          ∧ Row.get r "valid_row" = Val.bool true)
    ∧ (dfValid t).rows = (qcFlags t).rows := by
  have hmed : calMedian t = none := by
    rcases h with h | h
    · rw [calMedian, if_neg h]
    · by_cases hc : "Calories" ∈ t.cols
      · rw [calMedian, if_pos hc]
        rw [show t.rows.filterMap (fun r => toRatQ (Row.get r "Calories")) = [] from
          List.filterMap_eq_nil.mpr h]
        rfl
      · rw [calMedian, if_neg hc]
  have hflag : ∀ r, zeroStepFlag t r = false := by
    intro r
    rw [zeroStepFlag, hmed]
    rcases (if "Calories" ∈ t.cols then toRatQ (Row.get r "Calories") else some 0) with _ | c
    · exact Bool.and_false _
    · exact Bool.and_false _
  constructor
  · intro r2 hr2
    rw [qcFlags] at hr2
    simp only [List.mem_map] at hr2
    obtain ⟨r, _, hr⟩ := hr2
    rw [← hr]
    constructor
    · rw [get_setCell_ne _ _ _ _ (by decide), get_setCell_same, hflag r]
    · rw [get_setCell_same, hflag r]
      rfl
  · rw [dfValid]
    refine List.filter_eq_self.mpr ?_
    intro r2 hr2
    rw [qcFlags] at hr2
    simp only [List.mem_map] at hr2
    obtain ⟨r, _, hr⟩ := hr2
    rw [← hr, get_setCell_same, hflag r]
    decide

/-- Witness for C10: a concrete joined table without a Calories column. -/
theorem qc_degenerate_witness :
    (dfValid ⟨["TotalSteps"], [[("TotalSteps", Val.int 0)]]⟩).rows
      = (qcFlags ⟨["TotalSteps"], [[("TotalSteps", Val.int 0)]]⟩).rows :=
  (qc_degenerate _ (Or.inl (by decide))).2

/- ### C2: the quality-filter flag -/

/-- Modelled from the claim wording for C2 only (not from the source): the
flag with rows whose TotalSteps or Calories are missing treated as 0 for
the comparison. -/
def zeroStepFlagClaim (t : Table) (r : Row) : Bool :=
  match calMedian t with
  | some m =>
      decide ((toRatQ (Row.get r "TotalSteps")).getD 0 = 0)
        && decide (m < (toRatQ (Row.get r "Calories")).getD 0)
  | none => false

def c2Table : Table :=
  ⟨["TotalSteps", "Calories"],
   [[("TotalSteps", Val.null), ("Calories", Val.int 10)],
    [("TotalSteps", Val.int 5), ("Calories", Val.int 2)]]⟩

/-- C2 counterexample: on a row with a missing TotalSteps cell and Calories
above the median, the code leaves the flag false, while the claim (missing
treated as 0) demands true; so no row of this table is flagged even though
the claim flags its first row. -/
theorem qc_missing_cell_cx :
    zeroStepFlag c2Table [("TotalSteps", Val.null), ("Calories", Val.int 10)] = false
    ∧ zeroStepFlagClaim c2Table [("TotalSteps", Val.null), ("Calories", Val.int 10)] = true
    ∧ (qcFlags c2Table).rows.map (fun r => Row.get r "zero_step_high_cal")
        = [Val.bool false, Val.bool false] :=
  ⟨by with_unfolding_all rfl, by with_unfolding_all rfl, by with_unfolding_all rfl⟩

/-- C2 amended: with both columns present, the median is computed over the
non-null Calories cells and a row is flagged iff its TotalSteps cell is
non-null and equal to 0 and its Calories cell is non-null and strictly
above the median; comparisons involving a missing cell are false (missing
cells are not treated as 0; the scalar-0 default applies only when a whole
column is absent); valid_row is the negation, and other cells are
untouched. -/
theorem qc_flag_amended (t : Table) (i : Nat) (r : Row)
    (hs : "TotalSteps" ∈ t.cols) (hc : "Calories" ∈ t.cols)
    (hr : t.rows.get? i = some r) :
    ∃ r2, (qcFlags t).rows.get? i = some r2
      ∧ (Row.get r2 "zero_step_high_cal" = Val.bool true ↔
          (toRatQ (Row.get r "TotalSteps") = some 0
            ∧ ∃ m c, calMedian t = some m ∧ toRatQ (Row.get r "Calories") = some c ∧ m < c))
      ∧ (Row.get r2 "valid_row" = Val.bool true
          ↔ ¬ Row.get r2 "zero_step_high_cal" = Val.bool true)
      ∧ (∀ c2, c2 ≠ "zero_step_high_cal" → c2 ≠ "valid_row" → Row.get r2 c2 = Row.get r c2) := by
  refine ⟨setCell (setCell r "zero_step_high_cal" (Val.bool (zeroStepFlag t r)))
      "valid_row" (Val.bool (!zeroStepFlag t r)), ?_, ?_, ?_, ?_⟩
  · rw [qcFlags]
    simp only [List.get?_map, hr, Option.map_some']
  · rw [get_setCell_ne _ _ _ _ (by decide), get_setCell_same]
    rw [zeroStepFlag, if_pos hs, if_pos hc]
    simp only [Val.bool.injEq, Bool.and_eq_true, decide_eq_true_eq]
    constructor
    · rintro ⟨h1, h2⟩
      refine ⟨h1, ?_⟩
      rcases hcal : toRatQ (Row.get r "Calories") with _ | c <;> rw [hcal] at h2
      · rcases hm : calMedian t with _ | m <;> rw [hm] at h2 <;> cases h2
      · rcases hm : calMedian t with _ | m <;> rw [hm] at h2
        · cases h2
        · exact ⟨m, c, rfl, rfl, of_decide_eq_true h2⟩
    · rintro ⟨h1, m, c, hm, hcal, hlt⟩
      refine ⟨h1, ?_⟩
      rw [hcal, hm]
      exact decide_eq_true hlt
  · rw [get_setCell_same, get_setCell_ne _ _ _ _ (by decide), get_setCell_same]
    cases zeroStepFlag t r <;> simp
  · intro c2 hc1 hc2
    rw [get_setCell_ne _ _ _ _ hc2, get_setCell_ne _ _ _ _ hc1]

/-- Witness for C2 (amended) at a concrete table and row. -/
theorem qc_flag_amended_witness :
    ∃ r2, (qcFlags c2Table).rows.get? 1 = some r2
      ∧ (Row.get r2 "zero_step_high_cal" = Val.bool true ↔
          (toRatQ (Row.get [("TotalSteps", Val.int 5), ("Calories", Val.int 2)] "TotalSteps")
              = some 0
            ∧ ∃ m c, calMedian c2Table = some m
                ∧ toRatQ (Row.get [("TotalSteps", Val.int 5), ("Calories", Val.int 2)]
                    "Calories") = some c ∧ m < c))
      ∧ (Row.get r2 "valid_row" = Val.bool true
          ↔ ¬ Row.get r2 "zero_step_high_cal" = Val.bool true)
      ∧ (∀ c2, c2 ≠ "zero_step_high_cal" → c2 ≠ "valid_row" →
          Row.get r2 c2 = Row.get [("TotalSteps", Val.int 5), ("Calories", Val.int 2)] c2) :=
  qc_flag_amended c2Table 1 [("TotalSteps", Val.int 5), ("Calories", Val.int 2)]
    (by decide) (by decide) (by decide)

/- ### C5: sleep timestamp parsing -/

/-- Modelled from the claim wording for C5 only (not from the source): parse
with the 12-hour format as primary and fall back to the 24-hour format. -/
def sleepDayClaim (s : String) : Option Day :=
  match parse12h s with
  | some p => some (dayOf p)
  | none => (parse24h s).map dayOf

def c5Sleep : Table :=
  ⟨["Id", "SleepDay"], [[("Id", Val.str "1"), ("SleepDay", Val.str "4/12/2016 14:00:00")]]⟩

/-- C5 counterexample: a sleep timestamp in the 24-hour format fails the
12-hour format, and the sleep stage gives it a null day, although the
claimed fallback parses it; so the sleep path has no 24-hour fallback. -/
theorem sleep_no_fallback_cx :
    (parseSleepStage c5Sleep).rows.map (fun r => Row.get r "date") = [Val.null]
    ∧ parse12h "4/12/2016 14:00:00" = none
    ∧ sleepDayClaim "4/12/2016 14:00:00" = some ⟨2016, 4, 12⟩ :=
  ⟨by with_unfolding_all rfl, by with_unfolding_all rfl, by with_unfolding_all rfl⟩

/-- C5 amended: the sleep stage parses each SleepDay cell with the combined
date + 12-hour-clock-with-AM/PM format only, coercing failures: the derived
day is null exactly when the single 12-hour parse fails (there is no
24-hour fallback on the sleep path), and cells of other columns are
untouched. -/
theorem sleep_parse_amended (t : Table) (i : Nat) (r : Row)
    (h : "SleepDay" ∈ t.cols) (hr : t.rows.get? i = some r) :
    ∃ r2, (parseSleepStage t).rows.get? i = some r2
      ∧ Row.get r2 "date" = optValDay (cell12 (Row.get r "SleepDay"))
      ∧ Row.get r2 "SleepDay" = optValDt (cell12 (Row.get r "SleepDay"))
      ∧ (Row.get r2 "date" = Val.null ↔ cell12 (Row.get r "SleepDay") = none)
      ∧ (∀ c, c ≠ "date" → c ≠ "SleepDay" → Row.get r2 c = Row.get r c) := by
  refine ⟨setCell (setCell r "SleepDay" (optValDt (cell12 (Row.get r "SleepDay"))))
      "date" (optValDay (cell12 (Row.get r "SleepDay"))), ?_, ?_, ?_, ?_, ?_⟩
  · rw [parseSleepStage, if_pos h]
    simp only [List.get?_map, hr, Option.map_some']
  · rw [get_setCell_same]
  · rw [get_setCell_ne _ _ _ _ (by decide), get_setCell_same]
  · rw [get_setCell_same]
    rcases cell12 (Row.get r "SleepDay") with _ | p
    · simp [optValDay]
    · simp [optValDay]
  · intro c h1 h2
    rw [get_setCell_ne _ _ _ _ h1, get_setCell_ne _ _ _ _ h2]

/-- Witness for C5 (amended) at a concrete sleep table. -/
theorem sleep_parse_amended_witness :
    ∃ r2, (parseSleepStage c5Sleep).rows.get? 0 = some r2
      ∧ Row.get r2 "date"
          = optValDay (cell12 (Row.get
              [("Id", Val.str "1"), ("SleepDay", Val.str "4/12/2016 14:00:00")] "SleepDay"))
      ∧ Row.get r2 "SleepDay"
          = optValDt (cell12 (Row.get
              [("Id", Val.str "1"), ("SleepDay", Val.str "4/12/2016 14:00:00")] "SleepDay"))
      ∧ (Row.get r2 "date" = Val.null
          ↔ cell12 (Row.get
              [("Id", Val.str "1"), ("SleepDay", Val.str "4/12/2016 14:00:00")] "SleepDay")
            = none)
      ∧ (∀ c, c ≠ "date" → c ≠ "SleepDay" →
          Row.get r2 c = Row.get
            [("Id", Val.str "1"), ("SleepDay", Val.str "4/12/2016 14:00:00")] c) :=
  sleep_parse_amended c5Sleep 0
    [("Id", Val.str "1"), ("SleepDay", Val.str "4/12/2016 14:00:00")] (by decide) (by decide)

/- ### C4: heart-rate daily aggregation -/

theorem mem_dedupByAux_id [DecidableEq β] (k : β) :
    ∀ (l : List β) (seen : List β), k ∈ dedupByAux id seen l ↔ (k ∈ l ∧ k ∉ seen) := by
  intro l
  induction l with
  | nil => intro seen; simp [dedupByAux]
  | cons a as ih =>
      intro seen
      by_cases ha : a ∈ seen
      · rw [show dedupByAux id seen (a :: as) = dedupByAux id seen as from by
          simp only [dedupByAux, id_eq, if_pos ha]]
        rw [ih]
        simp only [List.mem_cons]
        constructor
        · rintro ⟨h1, h2⟩
          exact ⟨Or.inr h1, h2⟩
        · rintro ⟨h1 | h1, h2⟩
          · subst h1; exact absurd ha h2
          · exact ⟨h1, h2⟩
      · rw [show dedupByAux id seen (a :: as) = a :: dedupByAux id (a :: seen) as from by
          simp only [dedupByAux, id_eq, if_neg ha]]
        simp only [List.mem_cons, ih]
        constructor
        · rintro (h | ⟨h1, h2⟩)
          · subst h; exact ⟨Or.inl rfl, ha⟩
          · exact ⟨Or.inr h1, fun hk => h2 (Or.inr hk)⟩
        · rintro ⟨h1 | h1, h2⟩
          · exact Or.inl h1
          · by_cases hka : k = a
            · exact Or.inl hka
            · exact Or.inr ⟨h1, fun h => h.elim hka h2⟩

theorem mem_groupKeys_of (rows : List Row) (k : Val × Val)
    (h1 : k ∈ rows.map rowKey) (h2 : k.1 ≠ Val.null) (h3 : k.2 ≠ Val.null) :
    k ∈ groupKeys rows := by
  rw [groupKeys, (sortBy_perm keyLe _).mem_iff]
  rw [show dedupBy id ((rows.map rowKey).filter
      (fun k => decide (k.1 ≠ Val.null ∧ k.2 ≠ Val.null)))
    = dedupByAux id [] ((rows.map rowKey).filter
      (fun k => decide (k.1 ≠ Val.null ∧ k.2 ≠ Val.null))) from rfl]
  rw [mem_dedupByAux_id]
  refine ⟨List.mem_filter.mpr ⟨h1, by simp [h2, h3]⟩, List.not_mem_nil k⟩

theorem hrRowFor_fields (rows : List Row) (k : Val × Val) :
    rowKey (hrRowFor rows k) = k
    ∧ Row.get (hrRowFor rows k) "AvgHR"
        = optRatVal ((listMean ((rows.filter (fun r => decide (rowKey r = k))).filterMap
            (fun r => toRatQ (Row.get r "Value")))).map round1)
    ∧ Row.get (hrRowFor rows k) "MaxHR"
        = optRatVal ((listMax ((rows.filter (fun r => decide (rowKey r = k))).filterMap
            (fun r => toRatQ (Row.get r "Value")))).map round1)
    ∧ Row.get (hrRowFor rows k) "MinHR"
        = optRatVal ((listMin ((rows.filter (fun r => decide (rowKey r = k))).filterMap
            (fun r => toRatQ (Row.get r "Value")))).map round1)
    ∧ Row.get (hrRowFor rows k) "HRCount"
        = Val.int ((rows.filter (fun r => decide (rowKey r = k))).length : Int) := by
  refine ⟨?_, rfl, rfl, rfl, rfl⟩
  show (Row.get (hrRowFor rows k) "Id", Row.get (hrRowFor rows k) "date") = k
  rw [show Row.get (hrRowFor rows k) "Id" = k.1 from rfl,
    show Row.get (hrRowFor rows k) "date" = k.2 from rfl]

theorem filterMap_toRatQ_of_map_rat (g : List Row) (ws : List Rat)
    (h : g.map (fun r => Row.get r "Value") = ws.map Val.rat) :
    g.filterMap (fun r => toRatQ (Row.get r "Value")) = ws := by
  induction g generalizing ws with
  | nil =>
      cases ws with
      | nil => rfl
      | cons w ws2 => simp at h
  | cons r g ih =>
      cases ws with
      | nil => simp at h
      | cons w ws2 =>
          simp only [List.map_cons, List.cons.injEq] at h
          obtain ⟨h1, h2⟩ := h
          have h3 : toRatQ (Row.get r "Value") = some w := by rw [h1]; rfl
          simp only [List.filterMap_cons, h3]
          rw [ih ws2 h2]

/-- C4: for a (Subject, Day) group with non-null key whose Value cells are
the rationals v :: vt, the `hr_day` table has a row for that key, and every
row of it carrying that key holds the rounded mean, max and min of the
values and the exact sample count. -/
theorem hr_day_agg (heart : Table) (i d : Val) (v : Rat) (vt : List Rat)
    (hv : "Value" ∈ heart.cols) (hid : "Id" ∈ heart.cols) (hdt : "date" ∈ heart.cols)
    (hi : i ≠ Val.null) (hd : d ≠ Val.null)
    (hg : (heart.rows.filter (fun r => decide (rowKey r = (i, d)))).map
        (fun r => Row.get r "Value") = (v :: vt).map Val.rat) :
    (∃ r ∈ (hrDay heart).rows, rowKey r = (i, d))
    ∧ ∀ r ∈ (hrDay heart).rows, rowKey r = (i, d) →
        Row.get r "AvgHR" = Val.rat (round1 ((v :: vt).sum / ((v :: vt).length : Rat)))
        ∧ Row.get r "MaxHR" = Val.rat (round1 (vt.foldl max v))
        ∧ Row.get r "MinHR" = Val.rat (round1 (vt.foldl min v))
        ∧ Row.get r "HRCount" = Val.int ((v :: vt).length : Int) := by
  rw [hrDay, if_pos ⟨hv, hid, hdt⟩]
  have hnums := filterMap_toRatQ_of_map_rat _ _ hg
  have hmem : (i, d) ∈ heart.rows.map rowKey := by
    have hne : heart.rows.filter (fun r => decide (rowKey r = (i, d))) ≠ [] := by
      intro hcon
      rw [hcon] at hg
      simp at hg
    rcases hfe : heart.rows.filter (fun r => decide (rowKey r = (i, d))) with _ | ⟨r0, g0⟩
    · exact absurd hfe hne
    · have hr0 : r0 ∈ heart.rows.filter (fun r => decide (rowKey r = (i, d))) := by
        rw [hfe]; exact List.mem_cons_self _ _
      have := List.mem_filter.mp hr0
      exact List.mem_map.mpr ⟨r0, this.1, of_decide_eq_true this.2⟩
  have hkmem : (i, d) ∈ groupKeys heart.rows := mem_groupKeys_of _ _ hmem hi hd
  constructor
  · refine ⟨hrRowFor heart.rows (i, d), List.mem_map.mpr ⟨(i, d), hkmem, rfl⟩, ?_⟩
    exact (hrRowFor_fields heart.rows (i, d)).1
  · intro r hr hkey
    obtain ⟨k2, _, hk2⟩ := List.mem_map.mp hr
    obtain ⟨hkk, havg, hmax, hmin, hcount⟩ := hrRowFor_fields heart.rows k2
    have hk2id : k2 = (i, d) := by rw [← hkey, ← hk2, hkk]
    subst hk2id
    have hlen : (heart.rows.filter (fun r => decide (rowKey r = (i, d)))).length
        = (v :: vt).length := by
      have hl := congrArg List.length hg
      simpa using hl
    rw [← hk2]
    rw [havg, hmax, hmin, hcount, hnums, hlen]
    exact ⟨rfl, rfl, rfl, rfl⟩

/-- Witness for C4 at a concrete parsed heart table with samples 60, 70, 80. -/
theorem hr_day_agg_witness :
    (∃ r ∈ (hrDay ⟨["Id", "date", "Value"],
        [[("Id", Val.str "1"), ("date", Val.date ⟨2016, 4, 12⟩), ("Value", Val.rat 60)],
         [("Id", Val.str "1"), ("date", Val.date ⟨2016, 4, 12⟩), ("Value", Val.rat 70)],
         [("Id", Val.str "1"), ("date", Val.date ⟨2016, 4, 12⟩), ("Value", Val.rat 80)]]⟩).rows,
      rowKey r = (Val.str "1", Val.date ⟨2016, 4, 12⟩))
    ∧ ∀ r ∈ (hrDay ⟨["Id", "date", "Value"],
        [[("Id", Val.str "1"), ("date", Val.date ⟨2016, 4, 12⟩), ("Value", Val.rat 60)],
         [("Id", Val.str "1"), ("date", Val.date ⟨2016, 4, 12⟩), ("Value", Val.rat 70)],
         [("Id", Val.str "1"), ("date", Val.date ⟨2016, 4, 12⟩), ("Value", Val.rat 80)]]⟩).rows,
        rowKey r = (Val.str "1", Val.date ⟨2016, 4, 12⟩) →
        Row.get r "AvgHR"
            = Val.rat (round1 (([60, 70, 80] : List Rat).sum / (([60, 70, 80] : List Rat).length : Rat)))
        ∧ Row.get r "MaxHR" = Val.rat (round1 (([70, 80] : List Rat).foldl max 60))
        ∧ Row.get r "MinHR" = Val.rat (round1 (([70, 80] : List Rat).foldl min 60))
        ∧ Row.get r "HRCount" = Val.int (([60, 70, 80] : List Rat).length : Int) :=
  hr_day_agg _ (Val.str "1") (Val.date ⟨2016, 4, 12⟩) 60 [70, 80]
    (by decide) (by decide) (by decide) (by decide) (by decide)
    (by with_unfolding_all rfl)

/- ### C1: join-key bookkeeping lemmas -/

theorem normId_cols (t : Table) : (normId t).cols = t.cols := by
  rw [normId]
  split <;> rfl

theorem dedupe_cols (t : Table) : (dedupe t).cols = t.cols := by
  rw [dedupe]
  split <;> rfl

theorem mem_addCol_of_mem (cs : List String) (c c2 : String) (h : c2 ∈ cs) :
    c2 ∈ addCol cs c := by
  rw [addCol]
  split
  · exact h
  · exact List.mem_append_left _ h

theorem mem_addCol_self (cs : List String) (c : String) : c ∈ addCol cs c := by
  rw [addCol]
  split
  · assumption
  · exact List.mem_append_right _ (List.mem_singleton.mpr rfl)

theorem parseDailyStage_cols (t : Table) (h : "ActivityDate" ∈ t.cols) :
    (parseDailyStage t).cols = addCol t.cols "date" := by
  rw [parseDailyStage, if_pos h]

theorem parseSleepStage_cols (t : Table) (h : "SleepDay" ∈ t.cols) :
    (parseSleepStage t).cols = addCol t.cols "date" := by
  rw [parseSleepStage, if_pos h]

theorem mem_safeCols (t : Table) (cs : List String) (c : String)
    (h1 : c ∈ cs) (h2 : c ∈ t.cols) : c ∈ safeCols t cs :=
  List.mem_filter.mpr ⟨h1, by simpa using h2⟩

theorem rightOnly_names (r : Table) (c : String) (hc : c ∈ rightOnly r) :
    c ≠ "Id" ∧ c ≠ "date" := by
  have := (List.mem_filter.mp hc).2
  simpa using this

theorem rowKey_merge_nullExt (rl : Row) (rt : Table) :
    rowKey (rl ++ nullExtRow (rightOnly rt)) = rowKey rl := by
  refine rowKey_append_of_names _ _ ?_
  intro p hp
  obtain ⟨c, hc, hcp⟩ := List.mem_map.mp hp
  rw [← hcp]
  exact rightOnly_names rt c hc

theorem rowKey_merge_proj (rl rr : Row) (rt : Table) :
    rowKey (rl ++ projRow rr (rightOnly rt)) = rowKey rl := by
  refine rowKey_append_of_names _ _ ?_
  intro p hp
  obtain ⟨c, hc, hcp⟩ := List.mem_map.mp hp
  rw [← hcp]
  exact rightOnly_names rt c hc

theorem countP_mergeBlock (rl : Row) (rtr : List Row) (rt : Table) (k : Val × Val)
    (hR : rtr.countP (fun rr => decide (rowKey rr = rowKey rl)) ≤ 1) :
    (mergeBlock rl rtr (rightOnly rt)).countP (fun r => decide (rowKey r = k))
      = if rowKey rl = k then 1 else 0 := by
  rw [mergeBlock]
  rcases hms : rtr.filter (fun rr => decide (rowKey rr = rowKey rl)) with _ | ⟨m, ms⟩
  · simp only [List.countP_cons, List.countP_nil, rowKey_merge_nullExt rl rt]
    by_cases hk : rowKey rl = k <;> simp [hk]
  · have hlen : ms = [] := by
      have h1 : rtr.countP (fun rr => decide (rowKey rr = rowKey rl)) = ms.length + 1 := by
        rw [List.countP_eq_length_filter, hms]
        simp
      rcases ms with _ | ⟨m2, ms2⟩
      · rfl
      · rw [h1] at hR
        simp at hR
    subst hlen
    simp only [List.map_cons, List.map_nil, List.countP_cons, List.countP_nil,
      rowKey_merge_proj rl m rt]
    by_cases hk : rowKey rl = k <;> simp [hk]

theorem countP_mergeRows (lt : List Row) (rtr : List Row) (rt : Table) (k : Val × Val)
    (hR : ∀ k2, rtr.countP (fun rr => decide (rowKey rr = k2)) ≤ 1) :
    (mergeRows lt rtr (rightOnly rt)).countP (fun r => decide (rowKey r = k))
      = lt.countP (fun r => decide (rowKey r = k)) := by
  induction lt with
  | nil => rfl
  | cons rl lt ih =>
      rw [show mergeRows (rl :: lt) rtr (rightOnly rt)
          = mergeBlock rl rtr (rightOnly rt) ++ mergeRows lt rtr (rightOnly rt) from by
        rw [mergeRows, List.flatMap_cons]; rfl]
      rw [List.countP_append, ih, countP_mergeBlock rl rtr rt k (hR (rowKey rl)),
        List.countP_cons]
      by_cases hk : rowKey rl = k
      · simp [hk]
        omega
      · simp [hk]

theorem countP_projTable (t : Table) (cs : List String) (k : Val × Val)
    (h1 : "Id" ∈ cs) (h2 : "date" ∈ cs) :
    (projTable t cs).rows.countP (fun r => decide (rowKey r = k))
      = t.rows.countP (fun r => decide (rowKey r = k)) := by
  rw [projTable]
  show (t.rows.map (fun r => projRow r cs)).countP _ = _
  rw [List.countP_map]
  refine List.countP_congr ?_
  intro r _
  simp only [Function.comp_apply, rowKey_projRow r cs h1 h2]

theorem dedupe_count (t : Table) (h1 : "Id" ∈ t.cols) (h2 : "date" ∈ t.cols) (k : Val × Val) :
    (dedupe t).rows.countP (fun r => decide (rowKey r = k))
      = if k ∈ t.rows.map rowKey then 1 else 0 := by
  rw [dedupe, if_pos ⟨h1, h2⟩]
  rw [show dedupBy rowKey (sortBy (fun a b => keyLe (rowKey a) (rowKey b)) t.rows)
      = dedupByAux rowKey [] (sortBy (fun a b => keyLe (rowKey a) (rowKey b)) t.rows) from rfl]
  rw [countP_dedupByAux rowKey k]
  have hperm := (sortBy_perm (fun a b => keyLe (rowKey a) (rowKey b)) t.rows).map rowKey
  simp [hperm.mem_iff]

theorem dedupe_count_le_one (t : Table) (h1 : "Id" ∈ t.cols) (h2 : "date" ∈ t.cols)
    (k : Val × Val) :
    (dedupe t).rows.countP (fun r => decide (rowKey r = k)) ≤ 1 := by
  rw [dedupe_count t h1 h2 k]
  split <;> omega

theorem hrDay_count_le_one (h : Table) (k : Val × Val) :
    (hrDay h).rows.countP (fun r => decide (rowKey r = k)) ≤ 1 := by
  rw [hrDay]
  by_cases hcols : "Value" ∈ h.cols ∧ "Id" ∈ h.cols ∧ "date" ∈ h.cols
  · rw [if_pos hcols]
    show ((groupKeys h.rows).map (hrRowFor h.rows)).countP _ ≤ 1
    rw [List.countP_map]
    show List.countP (fun k2 => decide (rowKey (hrRowFor h.rows k2) = k)) (groupKeys h.rows) ≤ 1
    have hcong : List.countP (fun k2 => decide (rowKey (hrRowFor h.rows k2) = k))
          (groupKeys h.rows)
        = List.countP (fun k2 => decide (k2 = k)) (groupKeys h.rows) :=
      List.countP_congr (fun k2 _ => by simp only [(hrRowFor_fields h.rows k2).1])
    rw [hcong]
    rw [groupKeys, (sortBy_perm keyLe _).countP_eq]
    rw [show dedupBy id (((h.rows.map rowKey).filter
        (fun k => decide (k.1 ≠ Val.null ∧ k.2 ≠ Val.null))))
      = dedupByAux id [] (((h.rows.map rowKey).filter
        (fun k => decide (k.1 ≠ Val.null ∧ k.2 ≠ Val.null)))) from rfl]
    have := countP_dedupByAux (id : Val × Val → Val × Val) k
      (((h.rows.map rowKey).filter (fun k => decide (k.1 ≠ Val.null ∧ k.2 ≠ Val.null)))) []
    simp only [id_eq] at this
    rw [this]
    split
    · omega
    · split <;> omega
  · rw [if_neg hcols]
    simp [emptyHr]

theorem rowKey_coerceRow (present : List String) (r : Row) :
    rowKey (coerceRow present r) = rowKey r := by
  rw [coerceRow]
  have h : ∀ (cs : List String), (∀ c ∈ cs, c ≠ "Id" ∧ c ≠ "date") → ∀ r2 : Row,
      rowKey (cs.foldl (fun r3 c =>
        if c ∈ present then setCell r3 c (toNumericVal (Row.get r3 c)) else r3) r2)
        = rowKey r2 := by
    intro cs
    induction cs with
    | nil => intro _ r2; rfl
    | cons c cs ih =>
        intro hcs r2
        rw [List.foldl_cons, ih (fun c2 hc2 => hcs c2 (List.mem_cons_of_mem _ hc2))]
        by_cases hc : c ∈ present
        · rw [if_pos hc, rowKey_setCell _ _ _ (hcs c (List.mem_cons_self _ _)).1
            (hcs c (List.mem_cons_self _ _)).2]
        · rw [if_neg hc]
  exact h numCols (by decide) r

theorem countP_coerceNumeric (t : Table) (k : Val × Val) :
    (coerceNumeric t).rows.countP (fun r => decide (rowKey r = k))
      = t.rows.countP (fun r => decide (rowKey r = k)) := by
  rw [coerceNumeric]
  show (t.rows.map (coerceRow t.cols)).countP _ = _
  rw [List.countP_map]
  exact List.countP_congr (fun r _ => by
    simp only [Function.comp_apply, rowKey_coerceRow])

theorem countP_addWeekday (t : Table) (k : Val × Val) :
    (addWeekday t).rows.countP (fun r => decide (rowKey r = k))
      = t.rows.countP (fun r => decide (rowKey r = k)) := by
  rw [addWeekday]
  split
  · show (t.rows.map _).countP _ = _
    rw [List.countP_map]
    refine List.countP_congr (fun r _ => ?_)
    have hk := rowKey_setCell r "weekday"
      (match Row.get r "date" with
       | Val.date d => Val.str (dayName d)
       | _ => Val.null) (by decide) (by decide)
    simp only [Function.comp_apply, hk]
  · rfl

theorem hrDay_cols (h : Table) : (hrDay h).cols = hrSchema := by
  rw [hrDay]
  split <;> rfl

theorem mergeLeft_ok (l r : Table) (h1 : "Id" ∈ l.cols) (h2 : "date" ∈ l.cols)
    (h3 : "Id" ∈ r.cols) (h4 : "date" ∈ r.cols) :
    mergeLeft l r
      = Except.ok ⟨l.cols ++ rightOnly r, mergeRows l.rows r.rows (rightOnly r)⟩ := by
  rw [mergeLeft, if_pos ⟨h1, h2, h3, h4⟩]

/-- C1: with the key columns present, the join chain succeeds and produces a
table whose (Subject, Day) key multiset equals that of the deduplicated
activity table: each key present there appears exactly once, and keys
absent from the activity table (even if present in sleep or heart-rate) do
not appear at all. -/
theorem joined_key_unique (daily sleepT heartT : Table)
    (hd1 : "Id" ∈ daily.cols) (hd2 : "ActivityDate" ∈ daily.cols)
    (hs1 : "Id" ∈ sleepT.cols) (hs2 : "SleepDay" ∈ sleepT.cols) :
    ∃ J, joinedOf (some daily) (some sleepT) (some heartT) = Except.ok J
      ∧ ∀ k : Val × Val,
          (J.rows.countP (fun r => decide (rowKey r = k))
            = (dedupe (parseDailyStage (normId daily))).rows.countP
                (fun r => decide (rowKey r = k)))
          ∧ ((∃ r ∈ (dedupe (parseDailyStage (normId daily))).rows, rowKey r = k) →
              J.rows.countP (fun r => decide (rowKey r = k)) = 1)
          ∧ ((∀ r ∈ (parseDailyStage (normId daily)).rows, rowKey r ≠ k) →
              J.rows.countP (fun r => decide (rowKey r = k)) = 0) := by
  have hpdid : "Id" ∈ (parseDailyStage (normId daily)).cols := by
    rw [parseDailyStage_cols _ (by rw [normId_cols]; exact hd2), normId_cols]
    exact mem_addCol_of_mem _ _ _ hd1
  have hpddate : "date" ∈ (parseDailyStage (normId daily)).cols := by
    rw [parseDailyStage_cols _ (by rw [normId_cols]; exact hd2), normId_cols]
    exact mem_addCol_self _ _
  have hdPid : "Id" ∈ (dedupe (parseDailyStage (normId daily))).cols := by
    rw [dedupe_cols]; exact hpdid
  have hdPdate : "date" ∈ (dedupe (parseDailyStage (normId daily))).cols := by
    rw [dedupe_cols]; exact hpddate
  have hpsid : "Id" ∈ (parseSleepStage (normId sleepT)).cols := by
    rw [parseSleepStage_cols _ (by rw [normId_cols]; exact hs2), normId_cols]
    exact mem_addCol_of_mem _ _ _ hs1
  have hpsdate : "date" ∈ (parseSleepStage (normId sleepT)).cols := by
    rw [parseSleepStage_cols _ (by rw [normId_cols]; exact hs2), normId_cols]
    exact mem_addCol_self _ _
  have hsPid : "Id" ∈ (dedupe (parseSleepStage (normId sleepT))).cols := by
    rw [dedupe_cols]; exact hpsid
  have hsPdate : "date" ∈ (dedupe (parseSleepStage (normId sleepT))).cols := by
    rw [dedupe_cols]; exact hpsdate
  have hdf0id : "Id" ∈ safeCols (dedupe (parseDailyStage (normId daily))) keepCols :=
    mem_safeCols _ _ _ (by decide) hdPid
  have hdf0date : "date" ∈ safeCols (dedupe (parseDailyStage (normId daily))) keepCols :=
    mem_safeCols _ _ _ (by decide) hdPdate
  have hspid : "Id" ∈ safeCols (dedupe (parseSleepStage (normId sleepT)))
      ["Id", "date", "TotalMinutesAsleep"] :=
    mem_safeCols _ _ _ (by decide) hsPid
  have hspdate : "date" ∈ safeCols (dedupe (parseSleepStage (normId sleepT)))
      ["Id", "date", "TotalMinutesAsleep"] :=
    mem_safeCols _ _ _ (by decide) hsPdate
  have e1 := mergeLeft_ok
    (projTable (dedupe (parseDailyStage (normId daily)))
      (safeCols (dedupe (parseDailyStage (normId daily))) keepCols))
    (projTable (dedupe (parseSleepStage (normId sleepT)))
      (safeCols (dedupe (parseSleepStage (normId sleepT))) ["Id", "date", "TotalMinutesAsleep"]))
    hdf0id hdf0date hspid hspdate
  have e2 := mergeLeft_ok
    ⟨(projTable (dedupe (parseDailyStage (normId daily)))
        (safeCols (dedupe (parseDailyStage (normId daily))) keepCols)).cols
      ++ rightOnly (projTable (dedupe (parseSleepStage (normId sleepT)))
        (safeCols (dedupe (parseSleepStage (normId sleepT)))
          ["Id", "date", "TotalMinutesAsleep"])),
     mergeRows
      (projTable (dedupe (parseDailyStage (normId daily)))
        (safeCols (dedupe (parseDailyStage (normId daily))) keepCols)).rows
      (projTable (dedupe (parseSleepStage (normId sleepT)))
        (safeCols (dedupe (parseSleepStage (normId sleepT)))
          ["Id", "date", "TotalMinutesAsleep"])).rows
      (rightOnly (projTable (dedupe (parseSleepStage (normId sleepT)))
        (safeCols (dedupe (parseSleepStage (normId sleepT)))
          ["Id", "date", "TotalMinutesAsleep"])))⟩
    (hrDay (parseHeartStage (normId heartT)))
    (List.mem_append_left _ hdf0id) (List.mem_append_left _ hdf0date)
    (by rw [hrDay_cols]; decide) (by rw [hrDay_cols]; decide)
  have hjoin : joinedOf (some daily) (some sleepT) (some heartT)
      = (match mergeLeft
          (projTable (dedupe (parseDailyStage (normId daily)))
            (safeCols (dedupe (parseDailyStage (normId daily))) keepCols))
          (projTable (dedupe (parseSleepStage (normId sleepT)))
            (safeCols (dedupe (parseSleepStage (normId sleepT)))
              ["Id", "date", "TotalMinutesAsleep"])) with
        | Except.error e => Except.error e
        | Except.ok df1 =>
            match mergeLeft df1 (hrDay (parseHeartStage (normId heartT))) with
            | Except.error e => Except.error e
            | Except.ok df2 => Except.ok (addWeekday (coerceNumeric df2))) := rfl
  rw [e1] at hjoin
  simp only [] at hjoin
  rw [e2] at hjoin
  refine ⟨_, hjoin, ?_⟩
  intro k
  have hchain : (addWeekday (coerceNumeric
      ⟨((projTable (dedupe (parseDailyStage (normId daily)))
          (safeCols (dedupe (parseDailyStage (normId daily))) keepCols)).cols
        ++ rightOnly (projTable (dedupe (parseSleepStage (normId sleepT)))
          (safeCols (dedupe (parseSleepStage (normId sleepT)))
            ["Id", "date", "TotalMinutesAsleep"])))
        ++ rightOnly (hrDay (parseHeartStage (normId heartT))),
       mergeRows
        (mergeRows
          (projTable (dedupe (parseDailyStage (normId daily)))
            (safeCols (dedupe (parseDailyStage (normId daily))) keepCols)).rows
          (projTable (dedupe (parseSleepStage (normId sleepT)))
            (safeCols (dedupe (parseSleepStage (normId sleepT)))
              ["Id", "date", "TotalMinutesAsleep"])).rows
          (rightOnly (projTable (dedupe (parseSleepStage (normId sleepT)))
            (safeCols (dedupe (parseSleepStage (normId sleepT)))
              ["Id", "date", "TotalMinutesAsleep"]))))
        (hrDay (parseHeartStage (normId heartT))).rows
        (rightOnly (hrDay (parseHeartStage (normId heartT))))⟩)).rows.countP
        (fun r => decide (rowKey r = k))
      = (dedupe (parseDailyStage (normId daily))).rows.countP
          (fun r => decide (rowKey r = k)) := by
    rw [countP_addWeekday, countP_coerceNumeric]
    show (mergeRows _ _ _).countP _ = _
    rw [countP_mergeRows _ _ (hrDay (parseHeartStage (normId heartT))) k
      (fun k2 => hrDay_count_le_one _ k2)]
    show (mergeRows _ _ _).countP _ = _
    rw [countP_mergeRows _ _ (projTable (dedupe (parseSleepStage (normId sleepT)))
        (safeCols (dedupe (parseSleepStage (normId sleepT)))
          ["Id", "date", "TotalMinutesAsleep"])) k
      (fun k2 => by
        show (projTable _ _).rows.countP _ ≤ 1
        rw [countP_projTable _ _ _ hspid hspdate]
        exact dedupe_count_le_one _ hpsid hpsdate k2)]
    show (projTable _ _).rows.countP _ = _
    rw [countP_projTable _ _ _ hdf0id hdf0date]
  refine ⟨hchain, ?_, ?_⟩
  · rintro ⟨r, hr, hrk⟩
    rw [hchain, dedupe_count _ hpdid hpddate k]
    have hpos : 0 < (dedupe (parseDailyStage (normId daily))).rows.countP
        (fun r => decide (rowKey r = k)) :=
      List.countP_pos.mpr ⟨r, hr, decide_eq_true hrk⟩
    rw [dedupe_count _ hpdid hpddate k] at hpos
    by_cases hmem : k ∈ (parseDailyStage (normId daily)).rows.map rowKey
    · rw [if_pos hmem]
    · rw [if_neg hmem] at hpos
      omega
  · intro habs
    rw [hchain, dedupe_count _ hpdid hpddate k]
    rw [if_neg ?_]
    intro hmem
    obtain ⟨r, hr, hrk⟩ := List.mem_map.mp hmem
    exact habs r hr hrk

def c1Daily : Table :=
  ⟨["Id", "ActivityDate", "TotalSteps", "Calories"],
   [[("Id", Val.str "1"), ("ActivityDate", Val.str "4/12/2016"),
     ("TotalSteps", Val.int 0), ("Calories", Val.int 4000)],
    [("Id", Val.str "1"), ("ActivityDate", Val.str "4/13/2016"),
     ("TotalSteps", Val.int 8000), ("Calories", Val.int 2200)],
    [("Id", Val.str "1"), ("ActivityDate", Val.str "4/12/2016"),
     ("TotalSteps", Val.int 5), ("Calories", Val.int 100)]]⟩

def c1Sleep : Table :=
  ⟨["Id", "SleepDay", "TotalMinutesAsleep"],
   [[("Id", Val.str "1"), ("SleepDay", Val.str "4/12/2016 11:02:00 PM"),
     ("TotalMinutesAsleep", Val.int 400)],
    [("Id", Val.str "2"), ("SleepDay", Val.str "4/12/2016 10:00:00 PM"),
     ("TotalMinutesAsleep", Val.int 300)]]⟩

def c1Heart : Table :=
  ⟨["Id", "Time", "Value"],
   [[("Id", Val.str "1"), ("Time", Val.str "4/12/2016 7:21:00 AM"), ("Value", Val.int 60)],
    [("Id", Val.str "2"), ("Time", Val.str "4/14/2016 7:21:05 AM"), ("Value", Val.int 70)]]⟩

/-- Witness for C1: a key present in the activity table appears exactly once;
a key only present in sleep and heart-rate appears zero times. -/
theorem joined_key_unique_witness :
    ∃ J, joinedOf (some c1Daily) (some c1Sleep) (some c1Heart) = Except.ok J
      ∧ J.rows.countP
          (fun r => decide (rowKey r = (Val.str "1", Val.date ⟨2016, 4, 12⟩))) = 1
      ∧ J.rows.countP
          (fun r => decide (rowKey r = (Val.str "2", Val.date ⟨2016, 4, 12⟩))) = 0 := by
  obtain ⟨J, hJ, hk⟩ := joined_key_unique c1Daily c1Sleep c1Heart
    (by decide) (by decide) (by decide) (by decide)
  refine ⟨J, hJ, ?_, ?_⟩
  · exact (hk (Val.str "1", Val.date ⟨2016, 4, 12⟩)).2.1 (by with_unfolding_all decide)
  · exact (hk (Val.str "2", Val.date ⟨2016, 4, 12⟩)).2.2 (by with_unfolding_all decide)

/- ### C6: the pipeline is not schema-drift safe at the merge keys -/

def c6Sleep : Table :=
  ⟨["Id", "TotalMinutesAsleep"], [[("Id", Val.str "1"), ("TotalMinutesAsleep", Val.int 400)]]⟩

/-- C6: a loaded sleep table lacking its day-key column (SleepDay, hence no
derived date) makes the merge on (Id, date) raise a KeyError instead of
degrading gracefully: the join chain returns an error, and the run does not
complete. -/
theorem joinedOf_missing_day_key_error :
    joinedOf none (some c6Sleep) none = Except.error "KeyError" := by
  with_unfolding_all rfl
